import Mathlib

/-!
Verification development for the daily price-proportional heat-pump scheduler
(`src/lib/server/scheduler.ts`).

Modelling conventions (shallow embedding):
* JavaScript numbers are modelled as `ℚ`; the arithmetic used by the scheduler
  (linear unit conversion, averaging, one guarded division, clamping and a
  single final rounding) is exact on the inputs considered.
* A timestamp is its epoch-milliseconds value (`Int`).  The calendar slot a
  timestamp falls in — the code's `"YYYY-MM-DD-HH"` map key built from
  `toISOString` and `getUTCHours` — is modelled as the pair (epoch day, UTC
  hour), computed by Euclidean division/modulus, which for the positive
  divisors 86400000 and 3600000 agrees with JavaScript's floor semantics.
  ISO date strings compare (`localeCompare`) exactly as their epoch-day
  ordinals, so list sorting is unchanged by this representation.
* `Array.prototype.sort` is a stable sort; it is modelled by
  `List.insertionSort` (stable) with the corresponding total relation.
* A JavaScript `Map` preserves insertion order; the aggregation map is
  modelled as an association list updated in place (`insertSlotPrice`),
  and `Map.set` overwriting is modelled by taking the last binding
  (`weatherByKey`).
* `Math.round` rounds half toward +∞: `jsRound x = ⌊x + 1/2⌋`.
* The human-readable `reason` audit strings of plan entries, and the
  success-summary string of `executeDailyPlanning`, are not modelled: no
  verified property depends on them (the spec itself declares their exact
  wording non-contractual).
* Effectful functions (`executeDailyPlanning`,
  `executeScheduledTaskForAllUsers`) are modelled on their already-fetched
  data: the fetched price/weather series are parameters, per-user task
  execution is a function returning `Except` (a thrown exception is
  `Except.error`), and persistence calls — external I/O — are represented by
  the returned plan batches.
-/

namespace DaikinScheduler

/-- Epoch day of an epoch-milliseconds timestamp: the `YYYY-MM-DD` part of
`Date.toISOString`.  Euclidean `/` with the positive divisor 86400000 is
floor division, matching JavaScript. -/
def dateOfTs (ts : Int) : Int := ts / 86400000

/-- UTC hour-of-day of an epoch-milliseconds timestamp (`Date.getUTCHours`). -/
def hourOfTs (ts : Int) : Int := (ts / 3600000) % 24

/-- The `"YYYY-MM-DD-HH"` aggregation key of `scheduler.ts`, as the pair
(epoch day, UTC hour-of-day). -/
def keyOfTs (ts : Int) : Int × Int := (dateOfTs ts, hourOfTs ts)

/-- A raw price point (`PriceData` in `$lib/types`): an hour-aligned
timestamp and a price in EUR/MWh. -/
structure PriceData where
  timestamp : Int
  price_eur_mwh : ℚ
deriving DecidableEq

/-- A weather forecast point (`WeatherForecast`): timestamp and outdoor
temperature `temperature_2m`. -/
structure WeatherForecast where
  timestamp : Int
  temperature_2m : ℚ
deriving DecidableEq

/-- The scheduler settings fields read by the functions modelled here. -/
structure Settings where
  price_sensitivity : ℚ
  cold_weather_threshold : ℚ
  low_price_threshold : ℚ
  min_water_temp : ℚ
  best_price_window_hours : Int
  dhw_enabled : Bool
  dhw_min_temp : ℚ
  dhw_target_temp : ℚ
deriving DecidableEq

/-- `eurMwhToCentKwh` from `elering.ts`: 1 EUR/MWh = 0.1 c/kWh. -/
def eurMwhToCentKwh (eurMwh : ℚ) : ℚ := eurMwh / 10

/-- One binding of the `hourlyPrices` aggregation map: a calendar-slot key
and the raw c/kWh prices collected for that slot. -/
structure HourSlot where
  key : Int × Int
  prices : List ℚ
deriving DecidableEq

/-- `hourlyPrices.get(key)!.prices.push(...)` / `hourlyPrices.set(...)`:
update the binding for `k` in place if present, else append a new binding
(JavaScript `Map`s preserve insertion order). -/
def insertSlotPrice (m : List HourSlot) (k : Int × Int) (price : ℚ) : List HourSlot :=
  match m with
  | [] => [⟨k, [price]⟩]
  | s :: rest =>
    if s.key = k then ⟨s.key, s.prices ++ [price]⟩ :: rest
    else s :: insertSlotPrice rest k price

/-- The `hourlyPrices` map of `calculatePriceProportionalOffsets` (and,
identically, of `calculateDHWProportionalTemps`): prices grouped by
date+hour key, each converted to c/kWh. -/
def hourlyPricesOf (prices : List PriceData) : List HourSlot :=
  prices.foldl
    (fun m p => insertSlotPrice m (keyOfTs p.timestamp) (eurMwhToCentKwh p.price_eur_mwh)) []

/-- `arr.reduce((a, b) => a + b, 0) / arr.length`. -/
def listAvg (l : List ℚ) : ℚ := l.sum / (l.length : ℚ)

/-- One entry of `pricesCentKwh`: a calendar slot and its averaged c/kWh
price. -/
structure HourPrice where
  key : Int × Int
  price : ℚ
deriving DecidableEq

/-- The `pricesCentKwh` array: average price per date+hour slot, in the
insertion order of first occurrence. -/
def pricesCentKwhOf (prices : List PriceData) : List HourPrice :=
  (hourlyPricesOf prices).map (fun s => ⟨s.key, listAvg s.prices⟩)

/-- `sortedPrices`: the slot prices sorted ascending
(`[...priceValues].sort((a, b) => a - b)`). -/
def sortedPricesOf (prices : List PriceData) : List ℚ :=
  List.insertionSort (fun a b => a ≤ b) ((pricesCentKwhOf prices).map (fun p => p.price))

/-- `medianPrice = sortedPrices[Math.floor(sortedPrices.length / 2)]`.
The default value 0 is never used on the non-empty inputs the planners
reach it with. -/
def medianPriceOf (prices : List PriceData) : ℚ :=
  (sortedPricesOf prices).getD ((sortedPricesOf prices).length / 2) 0

/-- `minPrice = sortedPrices[0]`. -/
def minPriceOf (prices : List PriceData) : ℚ :=
  (sortedPricesOf prices).getD 0 0

/-- `maxPrice = sortedPrices[sortedPrices.length - 1]`. -/
def maxPriceOf (prices : List PriceData) : ℚ :=
  (sortedPricesOf prices).getD ((sortedPricesOf prices).length - 1) 0

/-- `priceSpread = maxPrice - minPrice`. -/
def priceSpreadOf (prices : List PriceData) : ℚ :=
  maxPriceOf prices - minPriceOf prices

/-- `halfSpread = priceSpread > 0 ? priceSpread / 2 : 1` — the
division-by-zero guard for identical prices. -/
def halfSpreadOf (prices : List PriceData) : ℚ :=
  if 0 < priceSpreadOf prices then priceSpreadOf prices / 2 else 1

/-- The normalized price deviation of one slot price, clamped to
`[-1, +1]`: `Math.max(-1, Math.min(1, (price - medianPrice) / halfSpread))`. -/
def normalizedDeviationOf (prices : List PriceData) (price : ℚ) : ℚ :=
  max (-1) (min 1 ((price - medianPriceOf prices) / halfSpreadOf prices))

/-- The `weatherByKey` map lookup: temperature for a calendar-slot key;
`Map.set` overwrites, so the last forecast point with the key wins. -/
def weatherByKey (weather : List WeatherForecast) (k : Int × Int) : Option ℚ :=
  (weather.reverse.find? (fun w => decide (keyOfTs w.timestamp = k))).map
    (fun w => w.temperature_2m)

/-- One entry of the `rawOffsets` array: slot key, averaged price and the
raw (pre-guarantee) offset `-K * normalizedDeviation`. -/
structure RawOffset where
  key : Int × Int
  price : ℚ
  rawOffset : ℚ
deriving DecidableEq

/-- The `rawOffsets` array of `calculatePriceProportionalOffsets`. -/
def rawOffsetsOf (prices : List PriceData) (K : ℚ) : List RawOffset :=
  (pricesCentKwhOf prices).map
    (fun p => ⟨p.key, p.price, -K * normalizedDeviationOf prices p.price⟩)

/-- `sortedByPrice = [...rawOffsets].sort((a, b) => a.price - b.price)`
(stable, so ties are broken by the original — price-input — order only). -/
def sortedByPriceOf (prices : List PriceData) (K : ℚ) : List RawOffset :=
  List.insertionSort (fun a b => a.price ≤ b.price) (rawOffsetsOf prices K)

/-- `cheapestHalfKeys`: keys of the cheapest `Math.ceil(n / 2)` slots.
(`Math.ceil(n / 2)` is `(n + 1) / 2` in natural division.) -/
def cheapestHalfKeysOf (prices : List PriceData) (K : ℚ) : List (Int × Int) :=
  ((sortedByPriceOf prices K).take (((rawOffsetsOf prices K).length + 1) / 2)).map
    (fun h => h.key)

/-- `Math.max(lo, Math.min(hi, x))`. -/
def clampQ (lo hi x : ℚ) : ℚ := max lo (min hi x)

/-- `Math.round`: rounds half toward +∞ (`Math.round(-2.5) = -2`). -/
def jsRound (x : ℚ) : ℤ := ⌊x + 1 / 2⌋

/-- The 50% guarantee step: a cheapest-half slot whose offset is negative is
forced to exactly 0. -/
def applyFairness (cheapKeys : List (Int × Int)) (k : Int × Int) (offset : ℚ) : ℚ :=
  if k ∈ cheapKeys ∧ offset < 0 then 0 else offset

/-- `coldFactor = Math.min(1, (coldThreshold - outdoorTemp) / 10)` (the
calling guard `outdoorTemp < coldThreshold` keeps it positive). -/
def coldFactor (coldThreshold outdoorTemp : ℚ) : ℚ :=
  min 1 ((coldThreshold - outdoorTemp) / 10)

/-- The cold-weather relaxation: when an outdoor temperature is known,
is below the threshold, and the offset is still negative, scale the offset
by `1 - 0.5 * coldFactor`. -/
def applyColdAdjustment (coldThreshold : ℚ) (outdoorTemp : Option ℚ) (offset : ℚ) : ℚ :=
  match outdoorTemp with
  | some t =>
    if t < coldThreshold ∧ offset < 0 then
      offset * (1 - 1 / 2 * coldFactor coldThreshold t)
    else offset
  | none => offset

/-- A planned heating hour (`PlannedHeatingHour` minus the audit `reason`
string): slot date and hour, final integer offset, optional forecast
temperature, and the slot price. -/
structure PlannedHeatingHour where
  date : Int
  hour : Int
  planned_offset : ℤ
  outdoor_temp_forecast : Option ℚ
  price_cent_kwh : ℚ
deriving DecidableEq

/-- The per-slot body of the `plannedHours` map: 50% guarantee, then cold
adjustment, then `Math.round(Math.max(-10, Math.min(10, offset)))`. -/
def finalizeHeatingHour (settings : Settings) (cheapKeys : List (Int × Int))
    (outdoorTemp : Option ℚ) (h : RawOffset) : PlannedHeatingHour :=
  let offset1 := applyFairness cheapKeys h.key h.rawOffset
  let offset2 := applyColdAdjustment settings.cold_weather_threshold outdoorTemp offset1
  ⟨h.key.1, h.key.2, jsRound (clampQ (-10) 10 offset2), outdoorTemp, h.price⟩

/-- The final comparator of `calculatePriceProportionalOffsets`: date first
(`localeCompare` on ISO dates = epoch-day order), then hour. -/
def heatingHourLE (a b : PlannedHeatingHour) : Prop :=
  a.date < b.date ∨ (a.date = b.date ∧ a.hour ≤ b.hour)

instance : DecidableRel heatingHourLE :=
  fun a b => inferInstanceAs (Decidable (a.date < b.date ∨ (a.date = b.date ∧ a.hour ≤ b.hour)))

/-- The planned heating hours before the final (date, hour) sort. -/
def plannedHeatingHoursOf (prices : List PriceData) (weather : List WeatherForecast)
    (settings : Settings) : List PlannedHeatingHour :=
  (rawOffsetsOf prices settings.price_sensitivity).map
    (fun h =>
      finalizeHeatingHour settings (cheapestHalfKeysOf prices settings.price_sensitivity)
        (weatherByKey weather h.key) h)

/-- `calculatePriceProportionalOffsets` from `scheduler.ts`: the core
price-proportional heating planner. -/
def calculatePriceProportionalOffsets (prices : List PriceData)
    (weather : List WeatherForecast) (settings : Settings) : List PlannedHeatingHour :=
  if prices = [] then []
  else List.insertionSort heatingHourLE (plannedHeatingHoursOf prices weather settings)

/-- One entry of the DHW `rawTemps` array: slot key, averaged price and raw
tank temperature `midTemp - K_DHW * normalizedDeviation * (tempRange / 20)`. -/
structure RawTemp where
  key : Int × Int
  price : ℚ
  rawTemp : ℚ
deriving DecidableEq

/-- The DHW sensitivity constant `K_DHW = 3` (not user-configurable). -/
def K_DHW : ℚ := 3

/-- The `rawTemps` array of `calculateDHWProportionalTemps`. -/
def rawTempsOf (prices : List PriceData) (settings : Settings) : List RawTemp :=
  let minTemp := settings.dhw_min_temp
  let maxTemp := settings.dhw_target_temp
  let midTemp := (minTemp + maxTemp) / 2
  let tempRange := maxTemp - minTemp
  (pricesCentKwhOf prices).map
    (fun p =>
      ⟨p.key, p.price,
        midTemp + -K_DHW * normalizedDeviationOf prices p.price * (tempRange / 20)⟩)

/-- The DHW `sortedByPrice` array (same stable ascending sort by price). -/
def dhwSortedByPriceOf (prices : List PriceData) (settings : Settings) : List RawTemp :=
  List.insertionSort (fun a b => a.price ≤ b.price) (rawTempsOf prices settings)

/-- The DHW `cheapestHalfKeys` set. -/
def dhwCheapestHalfKeysOf (prices : List PriceData) (settings : Settings) : List (Int × Int) :=
  ((dhwSortedByPriceOf prices settings).take
      (((rawTempsOf prices settings).length + 1) / 2)).map
    (fun h => h.key)

/-- A planned DHW hour (`PlannedDHWHour` minus the audit `reason` string). -/
structure PlannedDHWHour where
  date : Int
  hour : Int
  planned_temp : ℤ
  price_cent_kwh : ℚ
deriving DecidableEq

/-- The final comparator of `calculateDHWProportionalTemps`. -/
def dhwHourLE (a b : PlannedDHWHour) : Prop :=
  a.date < b.date ∨ (a.date = b.date ∧ a.hour ≤ b.hour)

instance : DecidableRel dhwHourLE :=
  fun a b => inferInstanceAs (Decidable (a.date < b.date ∨ (a.date = b.date ∧ a.hour ≤ b.hour)))

/-- The planned DHW hours before the final (date, hour) sort: the 50%
guarantee floors cheap-half slots at `midTemp`, then
`Math.round(Math.max(minTemp, Math.min(maxTemp, temp)))`. -/
def plannedDHWHoursOf (prices : List PriceData) (settings : Settings) : List PlannedDHWHour :=
  let minTemp := settings.dhw_min_temp
  let maxTemp := settings.dhw_target_temp
  let midTemp := (minTemp + maxTemp) / 2
  (rawTempsOf prices settings).map
    (fun h =>
      let temp :=
        if h.key ∈ dhwCheapestHalfKeysOf prices settings ∧ h.rawTemp < midTemp then midTemp
        else h.rawTemp
      ⟨h.key.1, h.key.2, jsRound (clampQ minTemp maxTemp temp), h.price⟩)

/-- `calculateDHWProportionalTemps` from `scheduler.ts`: the DHW tank
temperature planner. -/
def calculateDHWProportionalTemps (prices : List PriceData) (settings : Settings) :
    List PlannedDHWHour :=
  if prices = [] then []
  else List.insertionSort dhwHourLE (plannedDHWHoursOf prices settings)

/-- The failure message of `executeDailyPlanning` when fewer than 6 hours of
price data are available. -/
def insufficientDataMessage (n : Nat) : String :=
  "Pole piisavalt hinnaandmeid (" ++ toString n ++ " tundi). Vaja vähemalt 6 tundi."

/-- `DailyPlanningResult` (the optional hour lists are modelled as lists,
empty when absent; the `date` string is not modelled). -/
structure DailyPlanningResult where
  success : Bool
  message : String
  heatingHours : List PlannedHeatingHour
  dhwHours : List PlannedDHWHour
deriving DecidableEq

/-- The planning step of `executeDailyPlanning`, on its already-fetched
data: remaining-today prices, tomorrow prices, combined weather and
settings.  Fewer than 6 combined hours aborts with a descriptive failure
before any plan is computed or persisted; otherwise the heating (and, when
enabled, DHW) plans are computed and returned for persistence.  The
success-summary string is abbreviated to its fixed prefix. -/
def executeDailyPlanningCore (remainingTodayPrices tomorrowPrices : List PriceData)
    (weather : List WeatherForecast) (settings : Settings) : DailyPlanningResult :=
  let allPrices := remainingTodayPrices ++ tomorrowPrices
  if allPrices.length < 6 then
    { success := false
      message := insufficientDataMessage allPrices.length
      heatingHours := []
      dhwHours := [] }
  else
    { success := true
      message := "Plaan loodud"
      heatingHours := calculatePriceProportionalOffsets allPrices weather settings
      dhwHours := if settings.dhw_enabled then calculateDHWProportionalTemps allPrices settings
                  else [] }

/-- `ControlAction` from `$lib/types`. -/
inductive ControlAction where
  | boost
  | normal
  | reduce
  | noAction
deriving DecidableEq

/-- `ControlDecision` minus the audit `reason` string. -/
structure ControlDecision where
  action : ControlAction
  targetTemperature : ℚ
  currentPrice : ℚ
deriving DecidableEq

/-- The window filter of `findCheapestHourInWindow`:
`t >= now && t < now + windowHours * 60 * 60 * 1000`. -/
def windowPricesOf (prices : List PriceData) (windowHours : Int) (now : Int) :
    List PriceData :=
  prices.filter (fun p => decide (now ≤ p.timestamp ∧ p.timestamp < now + windowHours * 3600000))

/-- `windowPrices.reduce((min, p) => p.price_eur_mwh < min.price_eur_mwh ? p : min)`:
`reduce` without an initial value folds the tail onto the head, keeping the
earliest element among price ties. -/
def cheapestOf (l : List PriceData) (first : PriceData) : PriceData :=
  l.foldl (fun minp p => if p.price_eur_mwh < minp.price_eur_mwh then p else minp) first

/-- `findCheapestHourInWindow` from `scheduler.ts`: the cheapest hour in the
forward-looking window, or `none` when the window holds no price data.
Returns (timestamp, price in c/kWh). -/
def findCheapestHourInWindow (prices : List PriceData) (windowHours : Int)
    (currentTimestamp : Int) : Option (Int × ℚ) :=
  match windowPricesOf prices windowHours currentTimestamp with
  | [] => none
  | first :: rest =>
    some ((cheapestOf rest first).timestamp,
      eurMwhToCentKwh (cheapestOf rest first).price_eur_mwh)

/-- The part of `calculateFallbackHeatingAction` after the water-temperature
safety check: boost in the cheapest hour of the window (±1h tolerance),
else reduce; with no price data in the window, compare the current price
against `lowPriceThreshold`. -/
def fallbackAfterSafety (currentPriceCentKwh : ℚ) (currentTimestamp : Int)
    (allPrices : List PriceData) (settings : Settings) : ControlDecision :=
  match findCheapestHourInWindow allPrices settings.best_price_window_hours currentTimestamp with
  | some (cheapestTs, _) =>
    if |currentTimestamp - cheapestTs| < 3600000 then
      ⟨ControlAction.boost, 10, currentPriceCentKwh⟩
    else
      ⟨ControlAction.reduce, -10, currentPriceCentKwh⟩
  | none =>
    if currentPriceCentKwh < settings.low_price_threshold then
      ⟨ControlAction.boost, 10, currentPriceCentKwh⟩
    else
      ⟨ControlAction.reduce, -10, currentPriceCentKwh⟩

/-- `calculateFallbackHeatingAction` from `scheduler.ts`: a live water
temperature at or below `minWaterTemp` forces an immediate boost; otherwise
the cheapest-hour-in-window rule decides. -/
def calculateFallbackHeatingAction (currentPriceCentKwh : ℚ) (currentTimestamp : Int)
    (allPrices : List PriceData) (settings : Settings) (waterTemp : Option ℚ) :
    ControlDecision :=
  match waterTemp with
  | some w =>
    if w ≤ settings.min_water_temp then ⟨ControlAction.boost, 10, currentPriceCentKwh⟩
    else fallbackAfterSafety currentPriceCentKwh currentTimestamp allPrices settings
  | none => fallbackAfterSafety currentPriceCentKwh currentTimestamp allPrices settings

/-- The success/message fields a per-user `executeScheduledTask` call
resolves with. -/
structure TaskOutcome where
  success : Bool
  message : String
deriving DecidableEq

/-- `UserSchedulerResult` (the optional decision is not modelled). -/
structure UserSchedulerResult where
  userId : String
  success : Bool
  message : String
deriving DecidableEq

/-- `MultiUserSchedulerResult`. -/
structure MultiUserSchedulerResult where
  success : Bool
  usersProcessed : Nat
  results : List UserSchedulerResult
deriving DecidableEq

/-- The body of the per-user loop of `executeScheduledTaskForAllUsers`:
a normal resolution is recorded as is; a thrown error (`Except.error`) is
caught and recorded as a failure result for that user. -/
def userResultOf (exec : String → Except String TaskOutcome) (userId : String) :
    UserSchedulerResult :=
  match exec userId with
  | Except.ok r => ⟨userId, r.success, r.message⟩
  | Except.error e => ⟨userId, false, e⟩

/-- `executeScheduledTaskForAllUsers` from `scheduler.ts`: process the
registered accounts one after the other (a sequential `for` loop appending
to `results`), catching each account's error inside the loop body. -/
def executeScheduledTaskForAllUsers (exec : String → Except String TaskOutcome)
    (users : List String) : MultiUserSchedulerResult :=
  let results := users.foldl (fun acc u => acc ++ [userResultOf exec u]) []
  { success := results.all (fun r => r.success)
    usersProcessed := results.length
    results := results }

/-! ### General lemmas about rounding and clamping -/

theorem le_jsRound_of_le {x : ℚ} {m : ℤ} (h : (m : ℚ) ≤ x) : m ≤ jsRound x := by
  unfold jsRound
  rw [Int.le_floor]
  linarith

theorem jsRound_le_of_le {x : ℚ} {M : ℤ} (h : x ≤ (M : ℚ)) : jsRound x ≤ M := by
  unfold jsRound
  have hlt : (⌊x + 1 / 2⌋ : ℤ) < M + 1 := by
    rw [Int.floor_lt]
    push_cast
    linarith
  omega

theorem le_clampQ {lo hi x : ℚ} : lo ≤ clampQ lo hi x := le_max_left _ _

theorem clampQ_le {lo hi x : ℚ} (h : lo ≤ hi) : clampQ lo hi x ≤ hi :=
  max_le h (min_le_left _ _)

theorem jsRound_clampQ_mem {mq Mq : ℚ} {m M : ℤ} (x : ℚ)
    (hm : mq = (m : ℚ)) (hM : Mq = (M : ℚ)) (h : m ≤ M) :
    m ≤ jsRound (clampQ mq Mq x) ∧ jsRound (clampQ mq Mq x) ≤ M := by
  have hq : mq ≤ Mq := by
    rw [hm, hM]
    exact_mod_cast h
  constructor
  · exact le_jsRound_of_le (hm ▸ le_clampQ)
  · exact jsRound_le_of_le (hM ▸ clampQ_le hq)

theorem clampQ_nonneg {x : ℚ} (h : 0 ≤ x) : 0 ≤ clampQ (-10) 10 x :=
  le_trans (le_min (by norm_num) h) (le_max_right _ _)

/-! ### Membership lemmas for the planner outputs -/

theorem mem_calcOffsets {prices : List PriceData} {weather : List WeatherForecast}
    {settings : Settings} {e : PlannedHeatingHour}
    (h : e ∈ calculatePriceProportionalOffsets prices weather settings) :
    e ∈ plannedHeatingHoursOf prices weather settings := by
  unfold calculatePriceProportionalOffsets at h
  by_cases hp : prices = []
  · simp [hp] at h
  · rw [if_neg hp] at h
    exact ((List.perm_insertionSort _ _).mem_iff).mp h

theorem mem_calcDHW {prices : List PriceData} {settings : Settings} {e : PlannedDHWHour}
    (h : e ∈ calculateDHWProportionalTemps prices settings) :
    e ∈ plannedDHWHoursOf prices settings := by
  unfold calculateDHWProportionalTemps at h
  by_cases hp : prices = []
  · simp [hp] at h
  · rw [if_neg hp] at h
    exact ((List.perm_insertionSort _ _).mem_iff).mp h

/-! ### Structure of the slot-aggregation map -/

theorem insertSlotPrice_ne_nil (m : List HourSlot) (k : Int × Int) (p : ℚ) :
    insertSlotPrice m k p ≠ [] := by
  cases m with
  | nil => simp [insertSlotPrice]
  | cons s rest =>
    unfold insertSlotPrice
    split <;> simp

theorem foldl_insertSlotPrice_ne_nil (ps : List PriceData) :
    ∀ m : List HourSlot, m ≠ [] →
      ps.foldl (fun m p =>
        insertSlotPrice m (keyOfTs p.timestamp) (eurMwhToCentKwh p.price_eur_mwh)) m ≠ [] := by
  induction ps with
  | nil => intro m hm; simpa using hm
  | cons p rest ih =>
    intro m _
    simpa using ih _ (insertSlotPrice_ne_nil m _ _)

theorem hourlyPricesOf_ne_nil {prices : List PriceData} (h : prices ≠ []) :
    hourlyPricesOf prices ≠ [] := by
  cases prices with
  | nil => exact absurd rfl h
  | cons p rest =>
    unfold hourlyPricesOf
    rw [List.foldl_cons]
    exact foldl_insertSlotPrice_ne_nil rest _ (insertSlotPrice_ne_nil [] _ _)

theorem insertSlotPrice_keys (k : Int × Int) (p : ℚ) :
    ∀ m : List HourSlot,
      (insertSlotPrice m k p).map (fun s => s.key)
        = if k ∈ m.map (fun s => s.key) then m.map (fun s => s.key)
          else m.map (fun s => s.key) ++ [k] := by
  intro m
  induction m with
  | nil => simp [insertSlotPrice]
  | cons s rest ih =>
    by_cases hk : s.key = k
    · simp [insertSlotPrice, hk]
    · unfold insertSlotPrice
      rw [if_neg hk]
      by_cases hmem : k ∈ rest.map (fun s => s.key)
      · simp only [List.map_cons, ih, if_pos hmem]
        rw [if_pos (List.mem_cons_of_mem _ hmem)]
      · simp only [List.map_cons, ih, if_neg hmem]
        have hnc : ¬ k ∈ s.key :: rest.map (fun s => s.key) := by
          intro hc
          rcases List.mem_cons.mp hc with h | h
          · exact hk h.symm
          · exact hmem h
        rw [if_neg hnc]
        simp

theorem insertSlotPrice_keys_nodup {m : List HourSlot} (k : Int × Int) (p : ℚ)
    (h : (m.map (fun s => s.key)).Nodup) :
    ((insertSlotPrice m k p).map (fun s => s.key)).Nodup := by
  rw [insertSlotPrice_keys]
  by_cases hmem : k ∈ m.map (fun s => s.key)
  · rwa [if_pos hmem]
  · rw [if_neg hmem]
    simp [List.nodup_append, h, hmem]

theorem hourlyPricesOf_keys_nodup (prices : List PriceData) :
    ((hourlyPricesOf prices).map (fun s => s.key)).Nodup := by
  unfold hourlyPricesOf
  suffices h : ∀ (ps : List PriceData) (m : List HourSlot),
      (m.map (fun s => s.key)).Nodup →
      ((ps.foldl (fun m p =>
          insertSlotPrice m (keyOfTs p.timestamp) (eurMwhToCentKwh p.price_eur_mwh)) m).map
        (fun s => s.key)).Nodup by
    exact h prices [] (by simp)
  intro ps
  induction ps with
  | nil => intro m hm; simpa using hm
  | cons p rest ih =>
    intro m hm
    rw [List.foldl_cons]
    exact ih _ (insertSlotPrice_keys_nodup _ _ hm)

theorem pricesCentKwhOf_keys (prices : List PriceData) :
    (pricesCentKwhOf prices).map (fun p => p.key)
      = (hourlyPricesOf prices).map (fun s => s.key) := by
  unfold pricesCentKwhOf
  rw [List.map_map]
  rfl

theorem rawOffsetsOf_keys (prices : List PriceData) (K : ℚ) :
    (rawOffsetsOf prices K).map (fun h => h.key)
      = (pricesCentKwhOf prices).map (fun p => p.key) := by
  unfold rawOffsetsOf
  rw [List.map_map]
  rfl

theorem rawOffsetsOf_length (prices : List PriceData) (K : ℚ) :
    (rawOffsetsOf prices K).length = (pricesCentKwhOf prices).length :=
  List.length_map _ _

theorem rawOffsetsOf_keys_nodup (prices : List PriceData) (K : ℚ) :
    ((rawOffsetsOf prices K).map (fun h => h.key)).Nodup := by
  rw [rawOffsetsOf_keys, pricesCentKwhOf_keys]
  exact hourlyPricesOf_keys_nodup prices

/-! ### Counting lemmas for the fairness guarantee -/

theorem countP_mem_of_nodup {α : Type} {keys S : List α} (p : α → Bool)
    (hp : ∀ x, p x = true ↔ x ∈ S)
    (hk : keys.Nodup) (hS : S.Nodup) (hsub : ∀ x ∈ S, x ∈ keys) :
    keys.countP p = S.length := by
  rw [List.countP_eq_length_filter]
  have hfil : (keys.filter p).Nodup := hk.filter _
  have hperm : List.Perm (keys.filter p) S := by
    rw [List.perm_ext_iff_of_nodup hfil hS]
    intro a
    simp only [List.mem_filter, hp]
    exact ⟨fun h => h.2, fun h => ⟨hsub a h, h⟩⟩
  exact hperm.length_eq

theorem cheapestHalfKeys_nodup (prices : List PriceData) (K : ℚ) :
    (cheapestHalfKeysOf prices K).Nodup := by
  unfold cheapestHalfKeysOf
  rw [List.map_take]
  refine List.Sublist.nodup (List.take_sublist _ _) ?_
  have hperm : List.Perm ((sortedByPriceOf prices K).map (fun h => h.key))
      ((rawOffsetsOf prices K).map (fun h => h.key)) :=
    (List.perm_insertionSort _ _).map _
  exact hperm.nodup_iff.mpr (rawOffsetsOf_keys_nodup prices K)

theorem cheapestHalfKeys_subset (prices : List PriceData) (K : ℚ) :
    ∀ x ∈ cheapestHalfKeysOf prices K, x ∈ (rawOffsetsOf prices K).map (fun h => h.key) := by
  intro x hx
  unfold cheapestHalfKeysOf at hx
  rw [List.map_take] at hx
  have hmem := List.take_sublist _ _ |>.mem hx
  have hperm : List.Perm ((sortedByPriceOf prices K).map (fun h => h.key))
      ((rawOffsetsOf prices K).map (fun h => h.key)) :=
    (List.perm_insertionSort _ _).map _
  exact hperm.mem_iff.mp hmem

theorem cheapestHalfKeys_length {prices : List PriceData} (K : ℚ)
    (hne : prices ≠ []) :
    (cheapestHalfKeysOf prices K).length = ((rawOffsetsOf prices K).length + 1) / 2 := by
  have hn : 1 ≤ (rawOffsetsOf prices K).length := by
    rw [rawOffsetsOf_length]
    unfold pricesCentKwhOf
    rw [List.length_map]
    exact List.length_pos.mpr (hourlyPricesOf_ne_nil hne)
  unfold cheapestHalfKeysOf
  rw [List.length_map, List.length_take]
  have hsorted : (sortedByPriceOf prices K).length = (rawOffsetsOf prices K).length :=
    (List.perm_insertionSort _ _).length_eq
  rw [hsorted]
  omega

/-! ### Sign lemmas for the finalization pipeline -/

theorem applyFairness_nonneg {cheapKeys : List (Int × Int)} {k : Int × Int} (x : ℚ)
    (hk : k ∈ cheapKeys) : 0 ≤ applyFairness cheapKeys k x := by
  unfold applyFairness
  split
  · exact le_refl 0
  · next hcond =>
    push_neg at hcond
    exact le_of_not_lt (fun hx => absurd (hcond hk) (not_le.mpr hx))

theorem applyColdAdjustment_of_nonneg {x : ℚ} (c : ℚ) (ot : Option ℚ) (hx : 0 ≤ x) :
    applyColdAdjustment c ot x = x := by
  cases ot with
  | none => rfl
  | some t =>
    simp only [applyColdAdjustment]
    rw [if_neg]
    intro hcond
    exact absurd hcond.2 (not_lt.mpr hx)

theorem jsRound_nonneg {x : ℚ} (h : 0 ≤ x) : 0 ≤ jsRound x :=
  le_jsRound_of_le (by exact_mod_cast h)

theorem finalizeHeatingHour_nonneg (settings : Settings) (cheapKeys : List (Int × Int))
    (ot : Option ℚ) (h : RawOffset) (hk : h.key ∈ cheapKeys) :
    0 ≤ (finalizeHeatingHour settings cheapKeys ot h).planned_offset := by
  have h1 : 0 ≤ applyFairness cheapKeys h.key h.rawOffset := applyFairness_nonneg _ hk
  show 0 ≤ jsRound (clampQ (-10) 10 (applyColdAdjustment settings.cold_weather_threshold ot
    (applyFairness cheapKeys h.key h.rawOffset)))
  rw [applyColdAdjustment_of_nonneg _ _ h1]
  exact jsRound_nonneg (clampQ_nonneg h1)

/-! ### Constant-price lemmas (zero spread) -/

theorem insertSlotPrice_const (v : ℚ) (k : Int × Int) :
    ∀ m : List HourSlot, (∀ s ∈ m, s.prices ≠ [] ∧ ∀ q ∈ s.prices, q = v) →
      ∀ s ∈ insertSlotPrice m k v, s.prices ≠ [] ∧ ∀ q ∈ s.prices, q = v := by
  intro m
  induction m with
  | nil =>
    intro _ s hs
    simp only [insertSlotPrice, List.mem_singleton] at hs
    subst hs
    refine ⟨by simp, ?_⟩
    intro q hq
    simpa using hq
  | cons s0 rest ih =>
    intro hm s hs
    unfold insertSlotPrice at hs
    by_cases hk : s0.key = k
    · rw [if_pos hk] at hs
      rcases List.mem_cons.mp hs with h | h
      · subst h
        obtain ⟨h1, h2⟩ := hm s0 (List.mem_cons_self _ _)
        refine ⟨by simp, ?_⟩
        intro q hq
        rcases List.mem_append.mp hq with h | h
        · exact h2 q h
        · simpa using h
      · exact hm s (List.mem_cons_of_mem _ h)
    · rw [if_neg hk] at hs
      rcases List.mem_cons.mp hs with h | h
      · subst h
        exact hm s (List.mem_cons_self _ _)
      · exact ih (fun t ht => hm t (List.mem_cons_of_mem _ ht)) s h

theorem hourlyPricesOf_const {c : ℚ} {prices : List PriceData}
    (hc : ∀ p ∈ prices, p.price_eur_mwh = c) :
    ∀ s ∈ hourlyPricesOf prices, s.prices ≠ [] ∧ ∀ q ∈ s.prices, q = c / 10 := by
  unfold hourlyPricesOf
  suffices h : ∀ (ps : List PriceData), (∀ p ∈ ps, p.price_eur_mwh = c) →
      ∀ (m : List HourSlot), (∀ s ∈ m, s.prices ≠ [] ∧ ∀ q ∈ s.prices, q = c / 10) →
      ∀ s ∈ ps.foldl (fun m p =>
          insertSlotPrice m (keyOfTs p.timestamp) (eurMwhToCentKwh p.price_eur_mwh)) m,
        s.prices ≠ [] ∧ ∀ q ∈ s.prices, q = c / 10 by
    exact h prices hc [] (by simp)
  intro ps
  induction ps with
  | nil => intro _ m hm; simpa using hm
  | cons p rest ih =>
    intro hps m hm
    rw [List.foldl_cons]
    have hval : eurMwhToCentKwh p.price_eur_mwh = c / 10 := by
      rw [hps p (List.mem_cons_self _ _)]
      rfl
    refine ih (fun q hq => hps q (List.mem_cons_of_mem _ hq)) _ ?_
    rw [hval]
    exact insertSlotPrice_const (c / 10) _ m hm

theorem listAvg_const {l : List ℚ} {v : ℚ} (hne : l ≠ []) (h : ∀ q ∈ l, q = v) :
    listAvg l = v := by
  have hsum : ∀ t : List ℚ, (∀ q ∈ t, q = v) → t.sum = (t.length : ℚ) * v := by
    intro t
    induction t with
    | nil => intro _; simp
    | cons a rest ih =>
      intro ht
      rw [List.sum_cons, ih (fun q hq => ht q (List.mem_cons_of_mem _ hq)),
        ht a (List.mem_cons_self _ _), List.length_cons]
      push_cast
      ring
  have hlen : (l.length : ℚ) ≠ 0 := by
    have : 0 < l.length := List.length_pos.mpr hne
    exact_mod_cast Nat.pos_iff_ne_zero.mp this
  unfold listAvg
  rw [hsum l h, mul_comm, mul_div_assoc, div_self hlen, mul_one]

theorem pricesCentKwhOf_const {c : ℚ} {prices : List PriceData}
    (hc : ∀ p ∈ prices, p.price_eur_mwh = c) :
    ∀ p ∈ pricesCentKwhOf prices, p.price = c / 10 := by
  intro p hp
  unfold pricesCentKwhOf at hp
  obtain ⟨s, hs, rfl⟩ := List.mem_map.mp hp
  obtain ⟨h1, h2⟩ := hourlyPricesOf_const hc s hs
  exact listAvg_const h1 h2

theorem sortedPricesOf_const {c : ℚ} {prices : List PriceData}
    (hc : ∀ p ∈ prices, p.price_eur_mwh = c) :
    ∀ q ∈ sortedPricesOf prices, q = c / 10 := by
  intro q hq
  unfold sortedPricesOf at hq
  have hmem := (List.perm_insertionSort _ _).mem_iff.mp hq
  obtain ⟨p, hp, rfl⟩ := List.mem_map.mp hmem
  exact pricesCentKwhOf_const hc p hp

theorem sortedPricesOf_length_pos {prices : List PriceData} (hne : prices ≠ []) :
    0 < (sortedPricesOf prices).length := by
  unfold sortedPricesOf
  rw [(List.perm_insertionSort _ _).length_eq, List.length_map]
  unfold pricesCentKwhOf
  rw [List.length_map]
  exact List.length_pos.mpr (hourlyPricesOf_ne_nil hne)

theorem medianPriceOf_const {c : ℚ} {prices : List PriceData} (hne : prices ≠ [])
    (hc : ∀ p ∈ prices, p.price_eur_mwh = c) : medianPriceOf prices = c / 10 := by
  have hpos := sortedPricesOf_length_pos hne
  have hlt : (sortedPricesOf prices).length / 2 < (sortedPricesOf prices).length := by omega
  unfold medianPriceOf
  rw [List.getD_eq_getElem _ _ hlt]
  exact sortedPricesOf_const hc _ (List.getElem_mem _)

theorem minPriceOf_const {c : ℚ} {prices : List PriceData} (hne : prices ≠ [])
    (hc : ∀ p ∈ prices, p.price_eur_mwh = c) : minPriceOf prices = c / 10 := by
  have hpos := sortedPricesOf_length_pos hne
  unfold minPriceOf
  rw [List.getD_eq_getElem _ _ hpos]
  exact sortedPricesOf_const hc _ (List.getElem_mem _)

theorem maxPriceOf_const {c : ℚ} {prices : List PriceData} (hne : prices ≠ [])
    (hc : ∀ p ∈ prices, p.price_eur_mwh = c) : maxPriceOf prices = c / 10 := by
  have hpos := sortedPricesOf_length_pos hne
  have hlt : (sortedPricesOf prices).length - 1 < (sortedPricesOf prices).length := by omega
  unfold maxPriceOf
  rw [List.getD_eq_getElem _ _ hlt]
  exact sortedPricesOf_const hc _ (List.getElem_mem _)

theorem halfSpreadOf_const {c : ℚ} {prices : List PriceData} (hne : prices ≠ [])
    (hc : ∀ p ∈ prices, p.price_eur_mwh = c) : halfSpreadOf prices = 1 := by
  have hspread : priceSpreadOf prices = 0 := by
    unfold priceSpreadOf
    rw [maxPriceOf_const hne hc, minPriceOf_const hne hc]
    ring
  unfold halfSpreadOf
  rw [hspread]
  norm_num

theorem normalizedDeviationOf_const {c : ℚ} {prices : List PriceData} (hne : prices ≠ [])
    (hc : ∀ p ∈ prices, p.price_eur_mwh = c) :
    normalizedDeviationOf prices (c / 10) = 0 := by
  unfold normalizedDeviationOf
  rw [medianPriceOf_const hne hc, halfSpreadOf_const hne hc]
  norm_num

theorem applyFairness_zero (cheapKeys : List (Int × Int)) (k : Int × Int) :
    applyFairness cheapKeys k 0 = 0 := by
  unfold applyFairness
  split <;> rfl

/-! ### Lemmas about the fallback cheapest-hour fold -/

theorem cheapestOf_mem : ∀ (l : List PriceData) (first : PriceData),
    cheapestOf l first ∈ first :: l := by
  intro l
  induction l with
  | nil => intro first; simp [cheapestOf]
  | cons a rest ih =>
    intro first
    show cheapestOf rest (if a.price_eur_mwh < first.price_eur_mwh then a else first)
      ∈ first :: a :: rest
    rcases List.mem_cons.mp (ih (if a.price_eur_mwh < first.price_eur_mwh then a else first))
      with h | h
    · rw [h]
      split
      · exact List.mem_cons_of_mem _ (List.mem_cons_self _ _)
      · exact List.mem_cons_self _ _
    · exact List.mem_cons_of_mem _ (List.mem_cons_of_mem _ h)

theorem cheapestOf_le : ∀ (l : List PriceData) (first : PriceData),
    ∀ p ∈ first :: l, (cheapestOf l first).price_eur_mwh ≤ p.price_eur_mwh := by
  intro l
  induction l with
  | nil =>
    intro first p hp
    rw [List.mem_singleton] at hp
    subst hp
    exact le_refl _
  | cons a rest ih =>
    intro first p hp
    have hstep : cheapestOf (a :: rest) first
        = cheapestOf rest (if a.price_eur_mwh < first.price_eur_mwh then a else first) := rfl
    set b := if a.price_eur_mwh < first.price_eur_mwh then a else first with hb
    have hbf : b.price_eur_mwh ≤ first.price_eur_mwh ∧ b.price_eur_mwh ≤ a.price_eur_mwh := by
      rw [hb]
      split
      · next hlt => exact ⟨le_of_lt hlt, le_refl _⟩
      · next hlt => exact ⟨le_refl _, not_lt.mp hlt⟩
    have hself := ih b b (List.mem_cons_self _ _)
    rcases List.mem_cons.mp hp with h | h
    · subst h
      rw [hstep]
      exact le_trans hself hbf.1
    · rcases List.mem_cons.mp h with h2 | h2
      · subst h2
        rw [hstep]
        exact le_trans hself hbf.2
      · rw [hstep]
        exact ih b p (List.mem_cons_of_mem _ h2)

/-! ### Claim theorems -/

/-- Claim C2 (amended): every `planned_offset` computed by
`calculatePriceProportionalOffsets` lies in `[-10, 10]`, for all settings;
and, provided the DHW settings are integral with
`dhw_min_temp ≤ dhw_target_temp`, every `planned_temp` computed by
`calculateDHWProportionalTemps` lies in `[minTemp, maxTemp]`. -/
theorem planned_bounds (prices : List PriceData) (weather : List WeatherForecast)
    (settings : Settings) :
    (∀ e ∈ calculatePriceProportionalOffsets prices weather settings,
        -10 ≤ e.planned_offset ∧ e.planned_offset ≤ 10) ∧
    (∀ m M : ℤ, settings.dhw_min_temp = (m : ℚ) → settings.dhw_target_temp = (M : ℚ) →
      m ≤ M →
      ∀ e ∈ calculateDHWProportionalTemps prices settings,
        m ≤ e.planned_temp ∧ e.planned_temp ≤ M) := by
  constructor
  · intro e he
    obtain ⟨h, _, rfl⟩ := List.mem_map.mp (mem_calcOffsets he)
    exact jsRound_clampQ_mem (m := -10) (M := 10) _ (by norm_num) (by norm_num) (by norm_num)
  · intro m M hm hM hmM e he
    have hmem := mem_calcDHW he
    unfold plannedDHWHoursOf at hmem
    obtain ⟨h, _, rfl⟩ := List.mem_map.mp hmem
    exact jsRound_clampQ_mem _ hm hM hmM

/-- Claim C2 witness: the bounds theorem applied to a concrete input with
the default integral DHW settings 30 and 60. -/
theorem planned_bounds_witness :
    ((⟨7, -5, 5, 20, 6, true, 30, 60⟩ : Settings).dhw_min_temp = ((30 : ℤ) : ℚ)) ∧
    ((⟨7, -5, 5, 20, 6, true, 30, 60⟩ : Settings).dhw_target_temp = ((60 : ℤ) : ℚ)) ∧
    (∀ e ∈ calculatePriceProportionalOffsets [⟨0, 100⟩, ⟨3600000, 400⟩] []
        ⟨7, -5, 5, 20, 6, true, 30, 60⟩,
      -10 ≤ e.planned_offset ∧ e.planned_offset ≤ 10) ∧
    (∀ e ∈ calculateDHWProportionalTemps [⟨0, 100⟩, ⟨3600000, 400⟩]
        ⟨7, -5, 5, 20, 6, true, 30, 60⟩,
      (30 : ℤ) ≤ e.planned_temp ∧ e.planned_temp ≤ (60 : ℤ)) :=
  ⟨by norm_num, by norm_num,
    (planned_bounds [⟨0, 100⟩, ⟨3600000, 400⟩] [] ⟨7, -5, 5, 20, 6, true, 30, 60⟩).1,
    (planned_bounds [⟨0, 100⟩, ⟨3600000, 400⟩] [] ⟨7, -5, 5, 20, 6, true, 30, 60⟩).2
      30 60 (by norm_num) (by norm_num) (by norm_num)⟩

/-- Claim C2 counterexample: with the (sane-ordered but non-integral) DHW
settings `dhw_min_temp = dhw_target_temp = 30.4` and one price point, the
rounded `planned_temp` is 30, which lies below `minTemp = 30.4`, so the
bound `planned_temp ∈ [minTemp, maxTemp]` fails "for all settings values". -/
theorem dhw_bounds_counterexample :
    calculateDHWProportionalTemps [⟨0, 100⟩] ⟨7, -5, 5, 20, 6, true, 30.4, 30.4⟩
      = [⟨0, 0, 30, 10⟩] ∧
    ¬ (∀ e ∈ calculateDHWProportionalTemps [⟨0, 100⟩] ⟨7, -5, 5, 20, 6, true, 30.4, 30.4⟩,
        ((⟨7, -5, 5, 20, 6, true, 30.4, 30.4⟩ : Settings).dhw_min_temp ≤ (e.planned_temp : ℚ)
          ∧ (e.planned_temp : ℚ)
            ≤ (⟨7, -5, 5, 20, 6, true, 30.4, 30.4⟩ : Settings).dhw_target_temp)) := by
  have hres : calculateDHWProportionalTemps [⟨0, 100⟩] ⟨7, -5, 5, 20, 6, true, 30.4, 30.4⟩
      = [⟨0, 0, 30, 10⟩] := by
    norm_num [calculateDHWProportionalTemps, plannedDHWHoursOf, rawTempsOf,
      dhwCheapestHalfKeysOf, dhwSortedByPriceOf, K_DHW, normalizedDeviationOf, medianPriceOf,
      sortedPricesOf, pricesCentKwhOf, hourlyPricesOf, insertSlotPrice, keyOfTs, dateOfTs,
      hourOfTs, eurMwhToCentKwh, listAvg, halfSpreadOf, priceSpreadOf, maxPriceOf, minPriceOf,
      List.insertionSort, List.orderedInsert, dhwHourLE, jsRound, clampQ, min_def, max_def,
      Prod.mk.injEq, -Prod.mk_zero_zero]
  refine ⟨hres, ?_⟩
  intro h
  have h30 := h ⟨0, 0, 30, 10⟩ (by rw [hres]; exact List.mem_cons_self _ _)
  norm_num at h30

/-- Claim C5: for a slot whose offset is still negative after the fairness
step and whose forecast temperature is exactly `coldWeatherThreshold - 10`,
the cold-weather step scales the offset by exactly 1/2 (so the adjusted
magnitude is exactly half), and rounding is applied only once, at the end. -/
theorem coldAdjustment_half (settings : Settings) (cheapKeys : List (Int × Int))
    (h : RawOffset) (hneg : applyFairness cheapKeys h.key h.rawOffset < 0) :
    applyColdAdjustment settings.cold_weather_threshold
        (some (settings.cold_weather_threshold - 10))
        (applyFairness cheapKeys h.key h.rawOffset)
      = applyFairness cheapKeys h.key h.rawOffset / 2 ∧
    |applyFairness cheapKeys h.key h.rawOffset / 2|
      = |applyFairness cheapKeys h.key h.rawOffset| / 2 ∧
    (finalizeHeatingHour settings cheapKeys
        (some (settings.cold_weather_threshold - 10)) h).planned_offset
      = jsRound (clampQ (-10) 10 (applyFairness cheapKeys h.key h.rawOffset / 2)) := by
  have hcf : coldFactor settings.cold_weather_threshold
      (settings.cold_weather_threshold - 10) = 1 := by
    unfold coldFactor
    norm_num
  have hlt : settings.cold_weather_threshold - 10 < settings.cold_weather_threshold := by
    linarith
  have hadj : applyColdAdjustment settings.cold_weather_threshold
      (some (settings.cold_weather_threshold - 10))
      (applyFairness cheapKeys h.key h.rawOffset)
      = applyFairness cheapKeys h.key h.rawOffset / 2 := by
    simp only [applyColdAdjustment]
    rw [if_pos ⟨hlt, hneg⟩, hcf]
    ring
  refine ⟨hadj, ?_, ?_⟩
  · rw [abs_div]
    norm_num
  · show jsRound (clampQ (-10) 10 (applyColdAdjustment settings.cold_weather_threshold
      (some (settings.cold_weather_threshold - 10))
      (applyFairness cheapKeys h.key h.rawOffset))) = _
    rw [hadj]

/-- Claim C5 witness: the cold-relaxation theorem at threshold -5°C,
outdoor temperature -15°C and fairness-step offset -7. -/
theorem coldAdjustment_half_witness :
    applyFairness [] ((0 : ℤ), (0 : ℤ)) (-7) < 0 ∧
    (applyColdAdjustment (-5) (some (-15)) (applyFairness [] ((0 : ℤ), (0 : ℤ)) (-7))
        = applyFairness [] ((0 : ℤ), (0 : ℤ)) (-7) / 2 ∧
      |applyFairness [] ((0 : ℤ), (0 : ℤ)) (-7) / 2|
        = |applyFairness [] ((0 : ℤ), (0 : ℤ)) (-7)| / 2 ∧
      (finalizeHeatingHour ⟨7, -5, 5, 20, 6, false, 30, 60⟩ [] (some (-15))
          ⟨((0 : ℤ), (0 : ℤ)), 40, -7⟩).planned_offset
        = jsRound (clampQ (-10) 10 (applyFairness [] ((0 : ℤ), (0 : ℤ)) (-7) / 2))) := by
  have hneg : applyFairness [] ((0 : ℤ), (0 : ℤ)) (-7) < 0 := by
    norm_num [applyFairness]
  refine ⟨hneg, ?_⟩
  have hmain := coldAdjustment_half ⟨7, -5, 5, 20, 6, false, 30, 60⟩ []
    ⟨((0 : ℤ), (0 : ℤ)), 40, -7⟩ hneg
  have h1510 : ((⟨7, -5, 5, 20, 6, false, 30, 60⟩ : Settings).cold_weather_threshold - 10 : ℚ)
      = -15 := by norm_num
  rw [h1510] at hmain
  exact hmain

/-- Claim C6: with fewer than 6 combined hours of price data, daily
planning returns a failure result carrying the descriptive message, and
computes no heating or DHW plan. -/
theorem executeDailyPlanning_insufficient (remainingToday tomorrowP : List PriceData)
    (weather : List WeatherForecast) (settings : Settings)
    (h : (remainingToday ++ tomorrowP).length < 6) :
    (executeDailyPlanningCore remainingToday tomorrowP weather settings).success = false ∧
    (executeDailyPlanningCore remainingToday tomorrowP weather settings).message
      = insufficientDataMessage (remainingToday ++ tomorrowP).length ∧
    (executeDailyPlanningCore remainingToday tomorrowP weather settings).heatingHours = [] ∧
    (executeDailyPlanningCore remainingToday tomorrowP weather settings).dhwHours = [] := by
  have h' : remainingToday.length + tomorrowP.length < 6 := by simpa using h
  unfold executeDailyPlanningCore
  simp [h']

/-- Claim C6 witness: the insufficiency theorem at 5 available hours. -/
theorem executeDailyPlanning_insufficient_witness :
    (([⟨0, 100⟩, ⟨3600000, 200⟩, ⟨7200000, 300⟩] ++
        [⟨86400000, 100⟩, ⟨90000000, 200⟩] : List PriceData).length < 6) ∧
    (executeDailyPlanningCore [⟨0, 100⟩, ⟨3600000, 200⟩, ⟨7200000, 300⟩]
        [⟨86400000, 100⟩, ⟨90000000, 200⟩] [] ⟨7, -5, 5, 20, 6, true, 30, 60⟩).success
      = false :=
  ⟨by norm_num,
    (executeDailyPlanning_insufficient [⟨0, 100⟩, ⟨3600000, 200⟩, ⟨7200000, 300⟩]
      [⟨86400000, 100⟩, ⟨90000000, 200⟩] [] ⟨7, -5, 5, 20, 6, true, 30, 60⟩
      (by norm_num)).1⟩

/-- The sequential per-user loop is a map: folding with append produces one
result per user, in order. -/
theorem foldl_userResults (exec : String → Except String TaskOutcome) :
    ∀ (users : List String) (acc : List UserSchedulerResult),
      users.foldl (fun acc u => acc ++ [userResultOf exec u]) acc
        = acc ++ users.map (userResultOf exec) := by
  intro users
  induction users with
  | nil => intro acc; simp
  | cons u rest ih =>
    intro acc
    simp only [List.foldl_cons, List.map_cons]
    rw [ih]
    simp

/-- Claim C9: the multi-tenant fan-out records exactly one result per
registered account, in order; each account's entry is determined by that
account's own execution alone (so one account's thrown error, recorded as a
failure entry with the error message, leaves every other account's
processing unaffected). -/
theorem executeScheduledTaskForAllUsers_isolation
    (exec : String → Except String TaskOutcome) (users : List String) :
    (executeScheduledTaskForAllUsers exec users).results = users.map (userResultOf exec) ∧
    (executeScheduledTaskForAllUsers exec users).usersProcessed = users.length ∧
    (∀ u e, exec u = Except.error e →
      userResultOf exec u = ⟨u, false, e⟩) := by
  have hres : (executeScheduledTaskForAllUsers exec users).results
      = users.map (userResultOf exec) := by
    unfold executeScheduledTaskForAllUsers
    simpa using foldl_userResults exec users []
  refine ⟨hres, ?_, ?_⟩
  · unfold executeScheduledTaskForAllUsers
    rw [foldl_userResults exec users []]
    simp
  · intro u e he
    unfold userResultOf
    rw [he]

/-- Claim C9 witness: the isolation theorem with two accounts of which the
first throws: both accounts get a result, the first a failure carrying the
error message. -/
theorem executeScheduledTaskForAllUsers_isolation_witness :
    ((fun u => if u = "a" then Except.error "boom"
        else Except.ok (⟨true, "ok"⟩ : TaskOutcome)) "a" = Except.error "boom") ∧
    ((executeScheduledTaskForAllUsers
        (fun u => if u = "a" then Except.error "boom"
          else Except.ok (⟨true, "ok"⟩ : TaskOutcome)) ["a", "b"]).results
      = ["a", "b"].map (userResultOf
          (fun u => if u = "a" then Except.error "boom"
            else Except.ok (⟨true, "ok"⟩ : TaskOutcome))) ∧
      userResultOf
          (fun u => if u = "a" then Except.error "boom"
            else Except.ok (⟨true, "ok"⟩ : TaskOutcome)) "a"
        = ⟨"a", false, "boom"⟩) := by
  refine ⟨by norm_num, ?_, ?_⟩
  · exact (executeScheduledTaskForAllUsers_isolation _ ["a", "b"]).1
  · exact (executeScheduledTaskForAllUsers_isolation
      (fun u => if u = "a" then Except.error "boom"
        else Except.ok (⟨true, "ok"⟩ : TaskOutcome)) ["a", "b"]).2.2 "a" "boom" (by norm_num)

/-- Claim C8 counterexample: with no price data at all, the safety check
not firing and a current price (0 c/kWh) below the low-price threshold
(5 c/kWh), the fallback engine returns `boost`, not `reduce`. -/
theorem fallback_empty_counterexample :
    (calculateFallbackHeatingAction 0 0 [] ⟨7, -5, 5, 20, 6, false, 30, 60⟩ none).action
      = ControlAction.boost ∧
    ControlAction.boost ≠ ControlAction.reduce := by
  constructor
  · norm_num [calculateFallbackHeatingAction, fallbackAfterSafety, findCheapestHourInWindow,
      windowPricesOf]
  · decide

/-- Claim C8 (amended): for empty price input with the safety check not
firing, the fallback engine still returns a decision (it never errors):
`boost` when the current price is below `lowPriceThreshold`, otherwise the
conservative `reduce`. -/
theorem fallback_empty_graceful (currentPrice : ℚ) (now : Int) (settings : Settings)
    (waterTemp : Option ℚ)
    (hsafe : ∀ w, waterTemp = some w → settings.min_water_temp < w) :
    calculateFallbackHeatingAction currentPrice now [] settings waterTemp
      = if currentPrice < settings.low_price_threshold then
          ⟨ControlAction.boost, 10, currentPrice⟩
        else ⟨ControlAction.reduce, -10, currentPrice⟩ := by
  have hwin : windowPricesOf [] settings.best_price_window_hours now = [] := rfl
  have hafter : fallbackAfterSafety currentPrice now [] settings
      = if currentPrice < settings.low_price_threshold then
          ⟨ControlAction.boost, 10, currentPrice⟩
        else ⟨ControlAction.reduce, -10, currentPrice⟩ := by
    unfold fallbackAfterSafety findCheapestHourInWindow
    rw [hwin]
  cases waterTemp with
  | none => exact hafter
  | some w =>
    simp only [calculateFallbackHeatingAction]
    rw [if_neg (not_le.mpr (hsafe w rfl))]
    exact hafter

/-- Claim C8 witness: the graceful-degradation theorem at current price 7,
threshold 5, no water-temperature reading: the decision is `reduce`. -/
theorem fallback_empty_graceful_witness :
    (∀ w, (none : Option ℚ) = some w →
      (⟨7, -5, 5, 20, 6, false, 30, 60⟩ : Settings).min_water_temp < w) ∧
    calculateFallbackHeatingAction 7 0 [] ⟨7, -5, 5, 20, 6, false, 30, 60⟩ none
      = if (7 : ℚ) < (⟨7, -5, 5, 20, 6, false, 30, 60⟩ : Settings).low_price_threshold then
          ⟨ControlAction.boost, 10, 7⟩
        else ⟨ControlAction.reduce, -10, 7⟩ :=
  ⟨fun w hw => by simp at hw,
    fallback_empty_graceful 7 0 ⟨7, -5, 5, 20, 6, false, 30, 60⟩ none
      (fun w hw => by simp at hw)⟩

/-- Claim C3 counterexample: on prices `[10, 20, 30, 40]` c/kWh (100..400
EUR/MWh) for hours 0..3 with K = 7 and no weather, the code computes
`medianPrice = sortedPrices[Math.floor(4 / 2)] = sortedPrices[2] = 30`
(not 20), and the final offsets are `[7, 5, 0, -5]` (not `[5, 2, -2, -7]`
as the claim states). -/
theorem concreteScenario_counterexample :
    medianPriceOf [⟨0, 100⟩, ⟨3600000, 200⟩, ⟨7200000, 300⟩, ⟨10800000, 400⟩] = 30 ∧
    (30 : ℚ) ≠ 20 ∧
    (calculatePriceProportionalOffsets
        [⟨0, 100⟩, ⟨3600000, 200⟩, ⟨7200000, 300⟩, ⟨10800000, 400⟩] []
        ⟨7, -5, 5, 20, 6, false, 30, 60⟩).map (fun e => e.planned_offset)
      = [7, 5, 0, -5] ∧
    ([7, 5, 0, -5] : List ℤ) ≠ [5, 2, -2, -7] := by
  refine ⟨?_, by norm_num, ?_, by decide⟩
  · norm_num [medianPriceOf, sortedPricesOf, pricesCentKwhOf, hourlyPricesOf, insertSlotPrice,
      keyOfTs, dateOfTs, hourOfTs, eurMwhToCentKwh, listAvg,
      List.insertionSort, List.orderedInsert]
  · norm_num [calculatePriceProportionalOffsets, plannedHeatingHoursOf, finalizeHeatingHour,
      applyFairness, applyColdAdjustment, cheapestHalfKeysOf, sortedByPriceOf, rawOffsetsOf,
      normalizedDeviationOf, medianPriceOf, sortedPricesOf, pricesCentKwhOf, hourlyPricesOf,
      insertSlotPrice, keyOfTs, dateOfTs, hourOfTs, eurMwhToCentKwh, listAvg, halfSpreadOf,
      priceSpreadOf, maxPriceOf, minPriceOf, weatherByKey, List.insertionSort,
      List.orderedInsert, heatingHourLE, jsRound, clampQ, coldFactor, min_def, max_def,
      Prod.mk.injEq, -Prod.mk_zero_zero]
    rw [if_neg (show ¬([⟨0, 100⟩, ⟨3600000, 200⟩, ⟨7200000, 300⟩, ⟨10800000, 400⟩] :
      List PriceData) = [] by simp)]
    simp

/-- Claim C3 (amended): on prices `[10, 20, 30, 40]` c/kWh for hours 0..3
with K = 7 and no weather, `calculatePriceProportionalOffsets` computes
median = 30 (the element at 0-based index 2 of the sorted list),
spread = 30, halfSpread = 15, and returns the final offsets
`[7, 5, 0, -5]` for hours 0..3. -/
theorem concreteScenario :
    medianPriceOf [⟨0, 100⟩, ⟨3600000, 200⟩, ⟨7200000, 300⟩, ⟨10800000, 400⟩] = 30 ∧
    priceSpreadOf [⟨0, 100⟩, ⟨3600000, 200⟩, ⟨7200000, 300⟩, ⟨10800000, 400⟩] = 30 ∧
    halfSpreadOf [⟨0, 100⟩, ⟨3600000, 200⟩, ⟨7200000, 300⟩, ⟨10800000, 400⟩] = 15 ∧
    (calculatePriceProportionalOffsets
        [⟨0, 100⟩, ⟨3600000, 200⟩, ⟨7200000, 300⟩, ⟨10800000, 400⟩] []
        ⟨7, -5, 5, 20, 6, false, 30, 60⟩).map
        (fun e => ((e.date, e.hour), e.planned_offset))
      = [((0, 0), 7), ((0, 1), 5), ((0, 2), 0), ((0, 3), -5)] := by
  refine ⟨?_, ?_, ?_, ?_⟩ <;>
    norm_num [calculatePriceProportionalOffsets, plannedHeatingHoursOf, finalizeHeatingHour,
      applyFairness, applyColdAdjustment, cheapestHalfKeysOf, sortedByPriceOf, rawOffsetsOf,
      normalizedDeviationOf, medianPriceOf, sortedPricesOf, pricesCentKwhOf, hourlyPricesOf,
      insertSlotPrice, keyOfTs, dateOfTs, hourOfTs, eurMwhToCentKwh, listAvg, halfSpreadOf,
      priceSpreadOf, maxPriceOf, minPriceOf, weatherByKey, List.insertionSort,
      List.orderedInsert, heatingHourLE, jsRound, clampQ, coldFactor, min_def, max_def,
      Prod.mk.injEq, -Prod.mk_zero_zero]
  rw [if_neg (show ¬([⟨0, 100⟩, ⟨3600000, 200⟩, ⟨7200000, 300⟩, ⟨10800000, 400⟩] :
    List PriceData) = [] by simp)]
  simp

/-- Claim C10: both planners map an empty price list to an empty plan, for
every weather list and settings, without reaching the statistics
computations. -/
theorem planners_empty_input (weather : List WeatherForecast) (settings : Settings) :
    calculatePriceProportionalOffsets [] weather settings = [] ∧
    calculateDHWProportionalTemps [] settings = [] := by
  constructor
  · simp [calculatePriceProportionalOffsets]
  · simp [calculateDHWProportionalTemps]

/-- Claim C1: fairness guarantee — for every non-empty price input the plan
has one entry per aggregated calendar slot, and at least `ceil(n/2)` of the
`n` planned hours have `planned_offset ≥ 0`: the cheapest `ceil(n/2)` slots
by ascending price (stable sort, so ties are broken by price order only)
are floored to 0 — before the cold-weather step — whenever their computed
offset is negative, and they end the pipeline non-negative. -/
theorem fairness_guarantee (prices : List PriceData) (weather : List WeatherForecast)
    (settings : Settings) (hne : prices ≠ []) :
    (calculatePriceProportionalOffsets prices weather settings).length
      = (pricesCentKwhOf prices).length ∧
    ((calculatePriceProportionalOffsets prices weather settings).length + 1) / 2
      ≤ (calculatePriceProportionalOffsets prices weather settings).countP
          (fun e => decide (0 ≤ e.planned_offset)) := by
  have hperm : List.Perm (calculatePriceProportionalOffsets prices weather settings)
      (plannedHeatingHoursOf prices weather settings) := by
    unfold calculatePriceProportionalOffsets
    rw [if_neg hne]
    exact List.perm_insertionSort _ _
  have hlen : (calculatePriceProportionalOffsets prices weather settings).length
      = (rawOffsetsOf prices settings.price_sensitivity).length := by
    rw [hperm.length_eq]
    unfold plannedHeatingHoursOf
    rw [List.length_map]
  refine ⟨by rw [hlen, rawOffsetsOf_length], ?_⟩
  rw [List.Perm.countP_eq _ hperm, hlen]
  unfold plannedHeatingHoursOf
  rw [List.countP_map]
  have hcheap : (rawOffsetsOf prices settings.price_sensitivity).countP
      (fun h => decide (h.key ∈ cheapestHalfKeysOf prices settings.price_sensitivity))
      = ((rawOffsetsOf prices settings.price_sensitivity).length + 1) / 2 := by
    have hmapeq : (rawOffsetsOf prices settings.price_sensitivity).countP
        (fun h => decide (h.key ∈ cheapestHalfKeysOf prices settings.price_sensitivity))
        = ((rawOffsetsOf prices settings.price_sensitivity).map (fun h => h.key)).countP
            (fun x => decide (x ∈ cheapestHalfKeysOf prices settings.price_sensitivity)) := by
      rw [List.countP_map]
      rfl
    rw [hmapeq, ← cheapestHalfKeys_length settings.price_sensitivity hne]
    exact countP_mem_of_nodup _ (fun x => by simp)
      (rawOffsetsOf_keys_nodup prices settings.price_sensitivity)
      (cheapestHalfKeys_nodup prices settings.price_sensitivity)
      (cheapestHalfKeys_subset prices settings.price_sensitivity)
  rw [← hcheap]
  refine List.countP_mono_left ?_
  intro h hmem hdec
  have hk : h.key ∈ cheapestHalfKeysOf prices settings.price_sensitivity :=
    of_decide_eq_true hdec
  exact decide_eq_true
    (finalizeHeatingHour_nonneg settings _ (weatherByKey weather h.key) h hk)

/-- Claim C1 witness: the fairness guarantee at the concrete 4-hour input
(prices 10, 20, 30, 40 c/kWh). -/
theorem fairness_guarantee_witness :
    (([⟨0, 100⟩, ⟨3600000, 200⟩, ⟨7200000, 300⟩, ⟨10800000, 400⟩] : List PriceData) ≠ []) ∧
    ((calculatePriceProportionalOffsets
          [⟨0, 100⟩, ⟨3600000, 200⟩, ⟨7200000, 300⟩, ⟨10800000, 400⟩] []
          ⟨7, -5, 5, 20, 6, false, 30, 60⟩).length
        = (pricesCentKwhOf
            [⟨0, 100⟩, ⟨3600000, 200⟩, ⟨7200000, 300⟩, ⟨10800000, 400⟩]).length ∧
      ((calculatePriceProportionalOffsets
            [⟨0, 100⟩, ⟨3600000, 200⟩, ⟨7200000, 300⟩, ⟨10800000, 400⟩] []
            ⟨7, -5, 5, 20, 6, false, 30, 60⟩).length + 1) / 2
        ≤ (calculatePriceProportionalOffsets
              [⟨0, 100⟩, ⟨3600000, 200⟩, ⟨7200000, 300⟩, ⟨10800000, 400⟩] []
              ⟨7, -5, 5, 20, 6, false, 30, 60⟩).countP
            (fun e => decide (0 ≤ e.planned_offset))) :=
  ⟨by simp,
    fairness_guarantee [⟨0, 100⟩, ⟨3600000, 200⟩, ⟨7200000, 300⟩, ⟨10800000, 400⟩] []
      ⟨7, -5, 5, 20, 6, false, 30, 60⟩ (by simp)⟩

/-- Claim C4: zero-spread safety — when every input price is the same
value, `halfSpread` resolves to 1 (never 0, so the deviation division is
guarded), every normalized deviation is 0, and every planned offset is
exactly 0. -/
theorem zero_spread_idempotence (prices : List PriceData) (weather : List WeatherForecast)
    (settings : Settings) (c : ℚ) (hne : prices ≠ [])
    (hc : ∀ p ∈ prices, p.price_eur_mwh = c) :
    halfSpreadOf prices = 1 ∧
    (∀ p ∈ pricesCentKwhOf prices, normalizedDeviationOf prices p.price = 0) ∧
    (∀ e ∈ calculatePriceProportionalOffsets prices weather settings,
      e.planned_offset = 0) := by
  have hdev : ∀ p ∈ pricesCentKwhOf prices, normalizedDeviationOf prices p.price = 0 := by
    intro p hp
    rw [pricesCentKwhOf_const hc p hp]
    exact normalizedDeviationOf_const hne hc
  refine ⟨halfSpreadOf_const hne hc, hdev, ?_⟩
  intro e he
  obtain ⟨h, hh, rfl⟩ := List.mem_map.mp (mem_calcOffsets he)
  obtain ⟨p, hp, rfl⟩ := List.mem_map.mp hh
  show jsRound (clampQ (-10) 10 (applyColdAdjustment settings.cold_weather_threshold _
    (applyFairness _ _ (-settings.price_sensitivity
      * normalizedDeviationOf prices p.price)))) = 0
  rw [hdev p hp, mul_zero, applyFairness_zero,
    applyColdAdjustment_of_nonneg _ _ (le_refl 0)]
  norm_num [clampQ, jsRound]

/-- Claim C4 witness: zero-spread idempotence on two hours at the constant
price 50 EUR/MWh. -/
theorem zero_spread_idempotence_witness :
    (([⟨0, 50⟩, ⟨3600000, 50⟩] : List PriceData) ≠ [] ∧
      ∀ p ∈ ([⟨0, 50⟩, ⟨3600000, 50⟩] : List PriceData), p.price_eur_mwh = 50) ∧
    (halfSpreadOf [⟨0, 50⟩, ⟨3600000, 50⟩] = 1 ∧
      (∀ p ∈ pricesCentKwhOf [⟨0, 50⟩, ⟨3600000, 50⟩],
        normalizedDeviationOf [⟨0, 50⟩, ⟨3600000, 50⟩] p.price = 0) ∧
      (∀ e ∈ calculatePriceProportionalOffsets [⟨0, 50⟩, ⟨3600000, 50⟩] []
          ⟨7, -5, 5, 20, 6, false, 30, 60⟩,
        e.planned_offset = 0)) :=
  ⟨⟨by simp,
      by
        intro p hp
        simp only [List.mem_cons, List.not_mem_nil, or_false] at hp
        rcases hp with h | h <;> rw [h]⟩,
    zero_spread_idempotence [⟨0, 50⟩, ⟨3600000, 50⟩] [] ⟨7, -5, 5, 20, 6, false, 30, 60⟩ 50
      (by simp)
      (by
        intro p hp
        simp only [List.mem_cons, List.not_mem_nil, or_false] at hp
        rcases hp with h | h <;> rw [h])⟩

/-- Claim C7: fallback correctness — when the water-temperature safety
check does not fire and the forward-looking window contains a unique
strictly cheapest hour `m`, the fallback engine returns `boost` exactly
when the current hour is within the ±1h tolerance of `m`, and `reduce`
otherwise. -/
theorem fallback_cheapest_hour (currentPrice : ℚ) (now : Int) (allPrices : List PriceData)
    (settings : Settings) (waterTemp : Option ℚ) (m : PriceData)
    (hsafe : ∀ w, waterTemp = some w → settings.min_water_temp < w)
    (hm : m ∈ windowPricesOf allPrices settings.best_price_window_hours now)
    (hmin : ∀ p ∈ windowPricesOf allPrices settings.best_price_window_hours now,
      p ≠ m → m.price_eur_mwh < p.price_eur_mwh) :
    (calculateFallbackHeatingAction currentPrice now allPrices settings waterTemp).action
      = if |now - m.timestamp| < 3600000 then ControlAction.boost
        else ControlAction.reduce := by
  have hafter : (fallbackAfterSafety currentPrice now allPrices settings).action
      = if |now - m.timestamp| < 3600000 then ControlAction.boost
        else ControlAction.reduce := by
    rcases hwp : windowPricesOf allPrices settings.best_price_window_hours now with
      _ | ⟨first, rest⟩
    · rw [hwp] at hm
      exact absurd hm (List.not_mem_nil m)
    · have hcmem : cheapestOf rest first
          ∈ windowPricesOf allPrices settings.best_price_window_hours now := by
        rw [hwp]
        exact cheapestOf_mem rest first
      have hceq : cheapestOf rest first = m := by
        by_contra hneq
        have h1 := hmin _ hcmem hneq
        have h2 : (cheapestOf rest first).price_eur_mwh ≤ m.price_eur_mwh := by
          refine cheapestOf_le rest first m ?_
          rw [← hwp]
          exact hm
        linarith
      unfold fallbackAfterSafety findCheapestHourInWindow
      rw [hwp]
      simp only [hceq]
      by_cases habs : |now - m.timestamp| < 3600000
      · rw [if_pos habs, if_pos habs]
      · rw [if_neg habs, if_neg habs]
  cases waterTemp with
  | none => exact hafter
  | some w =>
    simp only [calculateFallbackHeatingAction]
    rw [if_neg (not_le.mpr (hsafe w rfl))]
    exact hafter

/-- Claim C7 witness: the cheapest-hour theorem on a 3-hour series whose
unique minimum (50 EUR/MWh at hour 1) is the current hour: boost. -/
theorem fallback_cheapest_hour_witness :
    ((⟨3600000, 50⟩ : PriceData)
        ∈ windowPricesOf [⟨0, 100⟩, ⟨3600000, 50⟩, ⟨7200000, 300⟩]
          (⟨7, -5, 5, 20, 6, false, 30, 60⟩ : Settings).best_price_window_hours 3600000 ∧
      (∀ p ∈ windowPricesOf [⟨0, 100⟩, ⟨3600000, 50⟩, ⟨7200000, 300⟩]
          (⟨7, -5, 5, 20, 6, false, 30, 60⟩ : Settings).best_price_window_hours 3600000,
        p ≠ (⟨3600000, 50⟩ : PriceData) →
          (⟨3600000, 50⟩ : PriceData).price_eur_mwh < p.price_eur_mwh)) ∧
    (calculateFallbackHeatingAction 5 3600000 [⟨0, 100⟩, ⟨3600000, 50⟩, ⟨7200000, 300⟩]
        ⟨7, -5, 5, 20, 6, false, 30, 60⟩ none).action
      = if |(3600000 : Int) - (⟨3600000, 50⟩ : PriceData).timestamp| < 3600000 then
          ControlAction.boost
        else ControlAction.reduce := by
  have hwin : windowPricesOf [⟨0, 100⟩, ⟨3600000, 50⟩, ⟨7200000, 300⟩]
      (⟨7, -5, 5, 20, 6, false, 30, 60⟩ : Settings).best_price_window_hours 3600000
      = [⟨3600000, 50⟩, ⟨7200000, 300⟩] := by
    norm_num [windowPricesOf]
  have hm : (⟨3600000, 50⟩ : PriceData)
      ∈ windowPricesOf [⟨0, 100⟩, ⟨3600000, 50⟩, ⟨7200000, 300⟩]
        (⟨7, -5, 5, 20, 6, false, 30, 60⟩ : Settings).best_price_window_hours 3600000 := by
    rw [hwin]
    exact List.mem_cons_self _ _
  have hmin : ∀ p ∈ windowPricesOf [⟨0, 100⟩, ⟨3600000, 50⟩, ⟨7200000, 300⟩]
      (⟨7, -5, 5, 20, 6, false, 30, 60⟩ : Settings).best_price_window_hours 3600000,
      p ≠ (⟨3600000, 50⟩ : PriceData) →
        (⟨3600000, 50⟩ : PriceData).price_eur_mwh < p.price_eur_mwh := by
    rw [hwin]
    intro p hp hne
    simp only [List.mem_cons, List.not_mem_nil, or_false] at hp
    rcases hp with h | h
    · exact absurd h hne
    · rw [h]
      norm_num
  exact ⟨⟨hm, hmin⟩,
    fallback_cheapest_hour 5 3600000 [⟨0, 100⟩, ⟨3600000, 50⟩, ⟨7200000, 300⟩]
      ⟨7, -5, 5, 20, 6, false, 30, 60⟩ none ⟨3600000, 50⟩
      (fun w hw => by simp at hw) hm hmin⟩

end DaikinScheduler
